import Mathlib

set_option maxRecDepth 8192

/-!
Verification development for `arch/arm/mach-omap2/cpuidle_omap4plus.c`
(OMAP4+ cpuidle driver).

The driver's externally visible behaviour is modelled as event traces:
every call the driver makes into the kernel power/clock/notifier
collaborators is recorded as an `Ev` value, in program order.  The
functions `omap_enter_idle_simple`, `omap_enter_idle_smp`,
`omap_enter_idle_coupled` and `omap4_idle_init` below are shallow
embeddings of the C functions of the same names.

For the symmetric (smp) variant the two spinlock-protected critical
sections (`raw_spin_lock_irqsave` .. `raw_spin_unlock_irqrestore`,
lines 188-193 and 197-202 of the source) are modelled as atomic steps
`smpVoteEnter` / `smpVoteExit` on the shared state; an interleaved
execution of N CPUs is a list of such steps (`runSmp`).

For the coupled variant the leader's spin-wait on CPU1 is modelled with
an observation oracle `obs : ℕ → FPwrst × Bool` giving, per loop
iteration, the value read by `pwrdm_read_fpwrst(cpu_pd[1])` and the
value of `cpu_done[1]`, plus a fuel bound; exhausted fuel (`none`)
models an unbounded spin.
-/

/-- Functional power states of the `PWRDM_FUNC_PWRST_*` macro family
used by the source (`ON`, `CSWR`, `OSWR`, `OFF`). -/
inductive FPwrst where
  | off
  | oswr
  | cswr
  | on
deriving DecidableEq, Repr

/-- Power domains touched by the driver: `mpu_pd` and `cpu_pd[i]`. -/
inductive Dom where
  | mpu
  | cpuPd (i : ℕ)
deriving DecidableEq, Repr

/-- Which cpuidle driver structure is registered by `omap4_idle_init`. -/
inductive DriverKind where
  | omap4
  | omap5
deriving DecidableEq, Repr

/-- One call made by the driver into a kernel collaborator. -/
inductive Ev where
  /-- `clockevents_notify(CLOCK_EVT_NOTIFY_BROADCAST_ENTER, &cpu_id)` -/
  | bcastEnter (cpu : ℕ)
  /-- `clockevents_notify(CLOCK_EVT_NOTIFY_BROADCAST_EXIT, &cpu_id)` -/
  | bcastExit (cpu : ℕ)
  /-- `clockevents_notify(CLOCK_EVT_NOTIFY_BROADCAST_ON, &cpu)` -/
  | bcastOn (cpu : ℕ)
  /-- `cpu_pm_enter()` -/
  | cpuPmEnter
  /-- `cpu_pm_exit()` -/
  | cpuPmExit
  /-- `cpu_cluster_pm_enter()` -/
  | clusterPmEnter
  /-- `cpu_cluster_pm_exit()` -/
  | clusterPmExit
  /-- `pwrdm_set_fpwrst(d, t)` -/
  | setF (d : Dom) (t : FPwrst)
  /-- `pwrdm_set_next_fpwrst(d, t)` -/
  | setNextF (d : Dom) (t : FPwrst)
  /-- `clkdm_wakeup(cpu_clkdm[i])` -/
  | clkdmWakeup (i : ℕ)
  /-- `clkdm_allow_idle(cpu_clkdm[i])` -/
  | clkdmAllowIdle (i : ℕ)
  /-- `omap4_mpuss_enter_lowpower(cpu, t)` / `omap4_enter_lowpower(cpu, t)` -/
  | lowpower (cpu : ℕ) (t : FPwrst)
  /-- `omap_do_wfi()` -/
  | wfi
  /-- `cpuidle_coupled_parallel_barrier(dev, &abort_barrier)` -/
  | barrier
  /-- write `cpu_done[cpu] = b` -/
  | setDone (cpu : ℕ) (b : Bool)
  /-- a `WARN_ON` firing -/
  | warn
  /-- `cpuidle_register` / `cpuidle_register_driver` -/
  | cpuidleRegister (k : DriverKind)
deriving DecidableEq, Repr

/-- The per-state descriptor `struct idle_statedata` (the mutable
`mpu_state_vote` u32 field is modelled separately, as the counter
component of the shared state `SmpShared`). -/
structure IdleStatedata where
  cpu_pwrst : FPwrst
  mpu_pwrst : FPwrst
deriving DecidableEq, Repr

/-- `omap4_idle_data[]`: C1 (ON/ON), C2 (OFF/CSWR), C3 (OFF/OSWR). -/
def omap4_idle_data : List IdleStatedata :=
  [⟨FPwrst.on, FPwrst.on⟩, ⟨FPwrst.off, FPwrst.cswr⟩, ⟨FPwrst.off, FPwrst.oswr⟩]

/-! ## Symmetric (smp) variant: the vote counter -/

/-- `2^32`: the counter `mpu_state_vote` is a `u32`. -/
def u32Mod : ℕ := 4294967296

/-- `u32` increment (`cx->mpu_state_vote++`). -/
def u32succ (v : ℕ) : ℕ := (v + 1) % u32Mod

/-- `u32` decrement (`cx->mpu_state_vote--`). -/
def u32pred (v : ℕ) : ℕ := (v + (u32Mod - 1)) % u32Mod

/-- Shared mutable state of one idle state's vote protocol: the u32
counter `cx->mpu_state_vote` and the trace of domain commands issued
under `mpu_lock`. -/
structure SmpShared where
  mpu_state_vote : ℕ
  trace : List Ev
deriving DecidableEq, Repr

/-- Critical section of lines 188-193: increment the vote, and when it
reaches `N = num_online_cpus()` command the shared MPU domain to the
state's `mpu_pwrst` target.  Returns the new shared state and the
events emitted by this section. -/
def smpVoteEnter (N : ℕ) (mpu_pwrst : FPwrst) (st : SmpShared) : SmpShared × List Ev :=
  let v := u32succ st.mpu_state_vote
  let e := if v = N then [Ev.setNextF Dom.mpu mpu_pwrst] else []
  (⟨v, st.trace ++ e⟩, e)

/-- Critical section of lines 197-202: when the pre-decrement vote
equals `N` command the shared MPU domain back to `ON`, then decrement
the vote. -/
def smpVoteExit (N : ℕ) (st : SmpShared) : SmpShared × List Ev :=
  let e := if st.mpu_state_vote = N then [Ev.setNextF Dom.mpu FPwrst.on] else []
  (⟨u32pred st.mpu_state_vote, st.trace ++ e⟩, e)

/-- One atomic step of an interleaved smp execution: a CPU executing
its vote-enter or its vote-exit critical section. -/
inductive SmpOp where
  | enter
  | exit
deriving DecidableEq, Repr

/-- Apply one critical section to the shared state. -/
def smpStep (N : ℕ) (low : FPwrst) (st : SmpShared) (op : SmpOp) : SmpShared :=
  match op with
  | SmpOp.enter => (smpVoteEnter N low st).1
  | SmpOp.exit => (smpVoteExit N st).1

/-- Run an interleaved schedule of critical sections.  `low` is the
`mpu_pwrst` target of the state being voted on (all participants enter
the same state, so the target is shared). -/
def runSmp (N : ℕ) (low : FPwrst) (ops : List SmpOp) (st : SmpShared) : SmpShared :=
  ops.foldl (smpStep N low) st

/-- Number of vote-enter sections in a schedule. -/
def cntE : List SmpOp → ℕ
  | [] => 0
  | SmpOp.enter :: r => cntE r + 1
  | SmpOp.exit :: r => cntE r

/-- Number of vote-exit sections in a schedule. -/
def cntX : List SmpOp → ℕ
  | [] => 0
  | SmpOp.enter :: r => cntX r
  | SmpOp.exit :: r => cntX r + 1

/-- A schedule is prefix-admissible from counter value `v` when no
vote-exit runs while the counter is zero (each CPU exits only after its
own enter, so exits never outnumber enters). -/
def prefOk : ℕ → List SmpOp → Bool
  | _, [] => true
  | v, SmpOp.enter :: r => prefOk (u32succ v) r
  | v, SmpOp.exit :: r => decide (1 ≤ v) && prefOk (u32pred v) r

/-- The sequence of counter values visited by a schedule (including the
initial and final values). -/
def votesSeq : ℕ → List SmpOp → List ℕ
  | v, [] => [v]
  | v, SmpOp.enter :: r => v :: votesSeq (u32succ v) r
  | v, SmpOp.exit :: r => v :: votesSeq (u32pred v) r

/-- `omap_enter_idle_smp` (lines 178-207) as run by one CPU, the two
critical sections taken against the shared state `st`.  Returns the
new shared state, this CPU's own event sequence, and the return value. -/
def omap_enter_idle_smp (N : ℕ) (cx : IdleStatedata) (cpu : ℕ) (index : ℤ)
    (st : SmpShared) : SmpShared × List Ev × ℤ :=
  let s1 := smpVoteEnter N cx.mpu_pwrst st
  let s2 := smpVoteExit N s1.1
  (s2.1,
   [Ev.bcastEnter cpu] ++ s1.2 ++ [Ev.lowpower cpu cx.cpu_pwrst] ++ s2.2
     ++ [Ev.bcastExit cpu],
   index)

/-! ## Simple variant -/

/-- `omap_enter_idle_simple` (lines 87-93). -/
def omap_enter_idle_simple (index : ℤ) : List Ev × ℤ :=
  ([Ev.wfi], index)

/-! ## Coupled variant -/

/-- Result of one CPU's execution of `omap_enter_idle_coupled`:
its event trace, the value returned to the framework, the final value
of its own `cpu_done` flag, and whether the `goto fail` abort path was
taken. -/
structure CoupledResult where
  evs : List Ev
  ret : ℤ
  cpuDoneOut : Bool
  aborted : Bool
deriving DecidableEq, Repr

/-- The leader's spin-wait (lines 109-122).  Iteration `i` first reads
`pwrdm_read_fpwrst(cpu_pd[1])` (= `(obs i).1`); if it is `OFF` the loop
exits normally.  Otherwise it reads `cpu_done[1]` (= `(obs i).2`); if
set it takes `goto fail`.  `some (i, true)` = normal exit at iteration
`i`, `some (i, false)` = abort at iteration `i`, `none` = the fuel ran
out (the loop would keep spinning). -/
def waitLoop (obs : ℕ → FPwrst × Bool) : ℕ → ℕ → Option (ℕ × Bool)
  | _, 0 => none
  | i, fuel + 1 =>
    if (obs i).1 = FPwrst.off then some (i, true)
    else if (obs i).2 = true then some (i, false)
    else waitLoop obs (i + 1) fuel

/-- Lines 125-169: the full (non-aborted) body after the wait, in
source order.  `mpuSetFails` is true when `pwrdm_set_fpwrst` returns
nonzero, in which case the `WARN_ON` at line 134 fires. -/
def coupledBodyMain (cpu : ℕ) (cpu1Online : Bool) (cx : IdleStatedata)
    (mpuSetFails : Bool) : List Ev :=
  [Ev.bcastEnter cpu, Ev.cpuPmEnter]
  ++ (if cpu = 0 then
        [Ev.setF Dom.mpu cx.mpu_pwrst]
        ++ (if mpuSetFails then [Ev.warn] else [])
        ++ (if cx.mpu_pwrst = FPwrst.oswr then [Ev.clusterPmEnter] else [])
      else [])
  ++ [Ev.lowpower cpu cx.cpu_pwrst, Ev.setDone cpu true]
  ++ (if cpu = 0 ∧ cpu1Online = true then
        [Ev.setNextF Dom.mpu FPwrst.on, Ev.clkdmWakeup 1,
         Ev.setNextF (Dom.cpuPd 1) FPwrst.on, Ev.clkdmAllowIdle 1]
      else [])
  ++ [Ev.cpuPmExit]
  ++ (if cx.mpu_pwrst = FPwrst.oswr then [Ev.clusterPmExit] else [])
  ++ [Ev.bcastExit cpu]

/-- The shared tail from the `fail:` label (lines 171-175): the abort
barrier, then clearing this CPU's `cpu_done`, then `return index`. -/
def coupledFinish (cpu : ℕ) (evs : List Ev) (index : ℤ) (aborted : Bool) :
    CoupledResult :=
  ⟨evs ++ [Ev.barrier, Ev.setDone cpu false], index, false, aborted⟩

/-- `omap_enter_idle_coupled` (lines 95-176) as run by one CPU.
`cpu` stands for both `dev->cpu` and `smp_processor_id()` (equal on
this path), `cpu1Online` for `cpumask_test_cpu(1, cpu_online_mask)`.
`none` models the leader spinning past the fuel bound. -/
def omap_enter_idle_coupled (cpu : ℕ) (cpu1Online : Bool) (cx : IdleStatedata)
    (index : ℤ) (obs : ℕ → FPwrst × Bool) (fuel : ℕ) (mpuSetFails : Bool) :
    Option CoupledResult :=
  if cpu = 0 ∧ cpu1Online = true then
    match waitLoop obs 0 fuel with
    | none => none
    | some (_, true) =>
        some (coupledFinish cpu (coupledBodyMain cpu cpu1Online cx mpuSetFails) index false)
    | some (_, false) => some (coupledFinish cpu [] index true)
  else
    some (coupledFinish cpu (coupledBodyMain cpu cpu1Online cx mpuSetFails) index false)

/-! ## Initialization -/

/-- SoC variant probed by `cpu_is_omap44xx()` / `soc_is_omap54xx()`. -/
inductive Soc where
  | omap44xx
  | omap54xx
  | other
deriving DecidableEq, Repr

/-- Environment of `omap4_idle_init`: whether each `pwrdm_lookup` /
`clkdm_lookup` succeeds, the SoC variant, and the status returned by
the cpuidle registration call. -/
structure InitEnv where
  mpu_pd : Bool
  cpu0_pd : Bool
  cpu1_pd : Bool
  mpu0_clkdm : Bool
  mpu1_clkdm : Bool
  soc : Soc
  registerRet : ℤ
deriving DecidableEq, Repr

/-- `ENODEV` (19); lookup or SoC-probe failure returns `-ENODEV`. -/
def ENODEV : ℤ := 19

/-- `omap4_idle_init` (lines 300-324): events performed and the status
returned. -/
def omap4_idle_init (env : InitEnv) : List Ev × ℤ :=
  if env.mpu_pd = false ∨ env.cpu0_pd = false ∨ env.cpu1_pd = false then
    ([], -ENODEV)
  else if env.mpu0_clkdm = false ∨ env.mpu1_clkdm = false then
    ([], -ENODEV)
  else
    match env.soc with
    | Soc.omap44xx =>
        ([Ev.bcastOn 0, Ev.bcastOn 1, Ev.cpuidleRegister DriverKind.omap4],
         env.registerRet)
    | Soc.omap54xx =>
        ([Ev.bcastOn 0, Ev.bcastOn 1, Ev.cpuidleRegister DriverKind.omap5],
         env.registerRet)
    | Soc.other => ([Ev.bcastOn 0, Ev.bcastOn 1], -ENODEV)

/-! ## Auxiliary predicates used by the statements -/

/-- Event `a` occurs strictly before event `b` in the list. -/
def Before (a b : Ev) (l : List Ev) : Prop :=
  ∃ l1 l2 l3, l = l1 ++ a :: (l2 ++ b :: l3)

/-- The notification events whose balance claim C10 is about. -/
def notifEv : Ev → Bool
  | Ev.bcastEnter _ => true
  | Ev.bcastExit _ => true
  | Ev.cpuPmEnter => true
  | Ev.cpuPmExit => true
  | Ev.clusterPmEnter => true
  | Ev.clusterPmExit => true
  | _ => false

/-! ## Lemmas: the smp vote counter -/

lemma u32succ_eq {v : ℕ} (h : v + 1 < u32Mod) : u32succ v = v + 1 :=
  Nat.mod_eq_of_lt h

lemma u32pred_eq {v : ℕ} (h1 : 1 ≤ v) (h2 : v < u32Mod) : u32pred v = v - 1 := by
  have h3 : v + (u32Mod - 1) = (v - 1) + 1 * u32Mod := by
    simp only [u32Mod] at h2 ⊢
    omega
  have h4 : v - 1 < u32Mod := by
    simp only [u32Mod] at h2 ⊢
    omega
  simp only [u32pred, h3, Nat.add_mul_mod_self_right]
  exact Nat.mod_eq_of_lt h4

lemma self_mem_votesSeq (ops : List SmpOp) (v : ℕ) : v ∈ votesSeq v ops := by
  cases ops with
  | nil => simp [votesSeq]
  | cons op r => cases op <;> simp [votesSeq]

lemma runSmp_vote (N : ℕ) (low : FPwrst) (hNM : N < u32Mod) :
    ∀ (ops : List SmpOp) (v : ℕ) (t : List Ev),
      prefOk v ops = true → v + cntE ops ≤ N →
      (runSmp N low ops ⟨v, t⟩).mpu_state_vote + cntX ops = v + cntE ops := by
  intro ops
  induction ops with
  | nil => intro v t _ _; simp [runSmp, cntE, cntX]
  | cons op r ih =>
    intro v t hp hv
    cases op with
    | enter =>
      have hv1 : v + 1 ≤ N := by simp only [cntE] at hv; omega
      have hs : u32succ v = v + 1 := u32succ_eq (lt_of_le_of_lt hv1 hNM)
      have hp' : prefOk (v + 1) r = true := by simpa [prefOk, hs] using hp
      have step : runSmp N low (SmpOp.enter :: r) ⟨v, t⟩
          = runSmp N low r
              ⟨v + 1, t ++ (if v + 1 = N then [Ev.setNextF Dom.mpu low] else [])⟩ := by
        simp [runSmp, smpStep, smpVoteEnter, hs]
      rw [step]
      have hIH := ih (v + 1)
        (t ++ (if v + 1 = N then [Ev.setNextF Dom.mpu low] else [])) hp'
        (by simp only [cntE] at hv ⊢; omega)
      simp only [cntE, cntX] at hv hIH ⊢
      omega
    | exit =>
      have hp1 : 1 ≤ v ∧ prefOk (u32pred v) r = true := by
        simpa [prefOk, Bool.and_eq_true, decide_eq_true_eq] using hp
      obtain ⟨h1, hp2⟩ := hp1
      have hvN : v ≤ N := le_trans (Nat.le_add_right _ _) hv
      have hd : u32pred v = v - 1 := u32pred_eq h1 (lt_of_le_of_lt hvN hNM)
      have hp' : prefOk (v - 1) r = true := by rw [hd] at hp2; exact hp2
      have step : runSmp N low (SmpOp.exit :: r) ⟨v, t⟩
          = runSmp N low r
              ⟨v - 1, t ++ (if v = N then [Ev.setNextF Dom.mpu FPwrst.on] else [])⟩ := by
        simp [runSmp, smpStep, smpVoteExit, hd]
      rw [step]
      have hIH := ih (v - 1)
        (t ++ (if v = N then [Ev.setNextF Dom.mpu FPwrst.on] else [])) hp'
        (by simp only [cntE] at hv ⊢; omega)
      simp only [cntE, cntX] at hv hIH ⊢
      omega

lemma votesSeq_bound (N : ℕ) (hNM : N < u32Mod) :
    ∀ (ops : List SmpOp) (v : ℕ), prefOk v ops = true → v + cntE ops ≤ N →
      ∀ x ∈ votesSeq v ops, x ≤ N := by
  intro ops
  induction ops with
  | nil =>
    intro v _ hv x hx
    simp only [votesSeq, List.mem_singleton] at hx
    simp only [cntE] at hv
    omega
  | cons op r ih =>
    intro v hp hv x hx
    cases op with
    | enter =>
      have hv1 : v + 1 ≤ N := by simp only [cntE] at hv; omega
      have hs : u32succ v = v + 1 := u32succ_eq (lt_of_le_of_lt hv1 hNM)
      have hp' : prefOk (v + 1) r = true := by simpa [prefOk, hs] using hp
      simp only [votesSeq, hs, List.mem_cons] at hx
      rcases hx with rfl | hx
      · omega
      · exact ih (v + 1) hp' (by simp only [cntE] at hv ⊢; omega) x hx
    | exit =>
      have hp1 : 1 ≤ v ∧ prefOk (u32pred v) r = true := by
        simpa [prefOk, Bool.and_eq_true, decide_eq_true_eq] using hp
      obtain ⟨h1, hp2⟩ := hp1
      have hvN : v ≤ N := le_trans (Nat.le_add_right _ _) hv
      have hd : u32pred v = v - 1 := u32pred_eq h1 (lt_of_le_of_lt hvN hNM)
      have hp' : prefOk (v - 1) r = true := by rw [hd] at hp2; exact hp2
      simp only [votesSeq, hd, List.mem_cons] at hx
      rcases hx with rfl | hx
      · omega
      · exact ih (v - 1) hp' (by simp only [cntE] at hv ⊢; omega) x hx

lemma runSmp_no_enter (N : ℕ) (low : FPwrst) (hNM : N < u32Mod) :
    ∀ (ops : List SmpOp) (v : ℕ) (t : List Ev),
      cntE ops = 0 → prefOk v ops = true → v < N →
      (runSmp N low ops ⟨v, t⟩).trace = t := by
  intro ops
  induction ops with
  | nil => intro v t _ _ _; simp [runSmp]
  | cons op r ih =>
    intro v t hE hp hvN
    cases op with
    | enter => simp only [cntE] at hE; omega
    | exit =>
      have hp1 : 1 ≤ v ∧ prefOk (u32pred v) r = true := by
        simpa [prefOk, Bool.and_eq_true, decide_eq_true_eq] using hp
      obtain ⟨h1, hp2⟩ := hp1
      have hd : u32pred v = v - 1 := u32pred_eq h1 (lt_trans hvN hNM)
      have hp' : prefOk (v - 1) r = true := by rw [hd] at hp2; exact hp2
      have hne : ¬(v = N) := by omega
      have step : runSmp N low (SmpOp.exit :: r) ⟨v, t⟩
          = runSmp N low r ⟨v - 1, t⟩ := by
        simp [runSmp, smpStep, smpVoteExit, hd, hne]
      rw [step]
      exact ih (v - 1) t (by simpa [cntE] using hE) hp' (by omega)

lemma runSmp_from_quorum (N : ℕ) (low : FPwrst) (hNM : N < u32Mod) (hN : 0 < N) :
    ∀ (ops : List SmpOp) (t : List Ev), cntE ops = 0 → prefOk N ops = true →
      (runSmp N low ops ⟨N, t⟩).mpu_state_vote < N →
      (runSmp N low ops ⟨N, t⟩).trace = t ++ [Ev.setNextF Dom.mpu FPwrst.on] := by
  intro ops t hE hp hfin
  cases ops with
  | nil => simp only [runSmp, List.foldl_nil] at hfin; omega
  | cons op r =>
    cases op with
    | enter => simp only [cntE] at hE; omega
    | exit =>
      have hp1 : 1 ≤ N ∧ prefOk (u32pred N) r = true := by
        simpa [prefOk, Bool.and_eq_true, decide_eq_true_eq] using hp
      obtain ⟨h1, hp2⟩ := hp1
      have hd : u32pred N = N - 1 := u32pred_eq h1 hNM
      have hp' : prefOk (N - 1) r = true := by rw [hd] at hp2; exact hp2
      have step : runSmp N low (SmpOp.exit :: r) ⟨N, t⟩
          = runSmp N low r ⟨N - 1, t ++ [Ev.setNextF Dom.mpu FPwrst.on]⟩ := by
        simp [runSmp, smpStep, smpVoteExit, hd]
      rw [step]
      exact runSmp_no_enter N low hNM r (N - 1) _ (by simpa [cntE] using hE) hp'
        (by omega)

lemma runSmp_trace_spec (N : ℕ) (low : FPwrst) (hNM : N < u32Mod) (hN : 0 < N) :
    ∀ (ops : List SmpOp) (v : ℕ) (t : List Ev),
      prefOk v ops = true → v + cntE ops ≤ N → v < N →
      (runSmp N low ops ⟨v, t⟩).mpu_state_vote < N →
      (runSmp N low ops ⟨v, t⟩).trace
        = t ++ (if N ∈ votesSeq v ops then
                  [Ev.setNextF Dom.mpu low, Ev.setNextF Dom.mpu FPwrst.on]
                else []) := by
  intro ops
  induction ops with
  | nil =>
    intro v t _ _ hvN _
    have hnm : N ∉ votesSeq v [] := by
      simp only [votesSeq, List.mem_singleton]
      omega
    simp [runSmp, hnm]
  | cons op r ih =>
    intro v t hp hv hvN hfin
    cases op with
    | enter =>
      have hv1 : v + 1 ≤ N := by simp only [cntE] at hv; omega
      have hs : u32succ v = v + 1 := u32succ_eq (lt_of_le_of_lt hv1 hNM)
      have hp' : prefOk (v + 1) r = true := by simpa [prefOk, hs] using hp
      by_cases hq : v + 1 = N
      · have hE0 : cntE r = 0 := by simp only [cntE] at hv; omega
        have step : runSmp N low (SmpOp.enter :: r) ⟨v, t⟩
            = runSmp N low r ⟨N, t ++ [Ev.setNextF Dom.mpu low]⟩ := by
          simp [runSmp, smpStep, smpVoteEnter, hs, hq]
        rw [step] at hfin ⊢
        have hmem : N ∈ votesSeq v (SmpOp.enter :: r) := by
          simp only [votesSeq, hs, List.mem_cons]
          exact Or.inr (by rw [← hq]; exact self_mem_votesSeq r (v + 1))
        rw [if_pos hmem]
        have hrest := runSmp_from_quorum N low hNM hN r
          (t ++ [Ev.setNextF Dom.mpu low]) hE0 (by rw [← hq]; exact hp') hfin
        rw [hrest]
        simp
      · have step : runSmp N low (SmpOp.enter :: r) ⟨v, t⟩
            = runSmp N low r ⟨v + 1, t⟩ := by
          simp [runSmp, smpStep, smpVoteEnter, hs, hq]
        rw [step] at hfin ⊢
        have hIH := ih (v + 1) t hp' (by simp only [cntE] at hv ⊢; omega)
          (lt_of_le_of_ne hv1 hq) hfin
        have hne : ¬(N = v) := by omega
        by_cases hm : N ∈ votesSeq (v + 1) r
        · have : N ∈ votesSeq v (SmpOp.enter :: r) := by
            simp only [votesSeq, hs, List.mem_cons]
            exact Or.inr hm
          rw [if_pos this, hIH, if_pos hm]
        · have hnot : N ∉ votesSeq v (SmpOp.enter :: r) := by
            simp only [votesSeq, hs, List.mem_cons]
            rintro (hc | hc)
            · exact hne hc
            · exact hm hc
          rw [if_neg hnot, hIH, if_neg hm]
    | exit =>
      have hp1 : 1 ≤ v ∧ prefOk (u32pred v) r = true := by
        simpa [prefOk, Bool.and_eq_true, decide_eq_true_eq] using hp
      obtain ⟨h1, hp2⟩ := hp1
      have hd : u32pred v = v - 1 := u32pred_eq h1 (lt_trans hvN hNM)
      have hp' : prefOk (v - 1) r = true := by rw [hd] at hp2; exact hp2
      have hne : ¬(v = N) := by omega
      have step : runSmp N low (SmpOp.exit :: r) ⟨v, t⟩
          = runSmp N low r ⟨v - 1, t⟩ := by
        simp [runSmp, smpStep, smpVoteExit, hd, hne]
      rw [step] at hfin ⊢
      have hIH := ih (v - 1) t hp' (by simp only [cntE] at hv ⊢; omega)
        (by omega) hfin
      have hneN : ¬(N = v) := by omega
      by_cases hm : N ∈ votesSeq (v - 1) r
      · have : N ∈ votesSeq v (SmpOp.exit :: r) := by
          simp only [votesSeq, hd, List.mem_cons]
          exact Or.inr hm
        rw [if_pos this, hIH, if_pos hm]
      · have hnot : N ∉ votesSeq v (SmpOp.exit :: r) := by
          simp only [votesSeq, hd, List.mem_cons]
          rintro (hc | hc)
          · exact hneN hc
          · exact hm hc
        rw [if_neg hnot, hIH, if_neg hm]

lemma smp_no_warn (N : ℕ) (low : FPwrst) :
    ∀ (ops : List SmpOp) (v : ℕ) (t : List Ev), Ev.warn ∉ t →
      Ev.warn ∉ (runSmp N low ops ⟨v, t⟩).trace := by
  intro ops
  induction ops with
  | nil => intro v t h; simpa [runSmp] using h
  | cons op r ih =>
    intro v t h
    cases op with
    | enter =>
      have step : runSmp N low (SmpOp.enter :: r) ⟨v, t⟩
          = runSmp N low r
              ⟨u32succ v,
               t ++ (if u32succ v = N then [Ev.setNextF Dom.mpu low] else [])⟩ := by
        simp [runSmp, smpStep, smpVoteEnter]
      rw [step]
      apply ih
      simp only [List.mem_append]
      rintro (hc | hc)
      · exact h hc
      · revert hc; split <;> simp
    | exit =>
      have step : runSmp N low (SmpOp.exit :: r) ⟨v, t⟩
          = runSmp N low r
              ⟨u32pred v,
               t ++ (if v = N then [Ev.setNextF Dom.mpu FPwrst.on] else [])⟩ := by
        simp [runSmp, smpStep, smpVoteExit]
      rw [step]
      apply ih
      simp only [List.mem_append]
      rintro (hc | hc)
      · exact h hc
      · revert hc; split <;> simp

/-! ## Lemmas: the coupled wait loop and body -/

lemma waitLoop_spec (obs : ℕ → FPwrst × Bool) :
    ∀ (fuel s i : ℕ) (b : Bool), waitLoop obs s fuel = some (i, b) →
      s ≤ i ∧ i < s + fuel
      ∧ (∀ j, s ≤ j → j < i → (obs j).1 ≠ FPwrst.off ∧ (obs j).2 = false)
      ∧ (b = true → (obs i).1 = FPwrst.off)
      ∧ (b = false → (obs i).1 ≠ FPwrst.off ∧ (obs i).2 = true) := by
  intro fuel
  induction fuel with
  | zero => intro s i b h; simp [waitLoop] at h
  | succ n ih =>
    intro s i b h
    simp only [waitLoop] at h
    by_cases h1 : (obs s).1 = FPwrst.off
    · rw [if_pos h1] at h
      simp only [Option.some.injEq, Prod.mk.injEq] at h
      obtain ⟨rfl, rfl⟩ := h
      exact ⟨le_rfl, by omega, fun j hj1 hj2 => by omega,
        fun _ => h1, fun hb => by simp at hb⟩
    · rw [if_neg h1] at h
      by_cases h2 : (obs s).2 = true
      · rw [if_pos h2] at h
        simp only [Option.some.injEq, Prod.mk.injEq] at h
        obtain ⟨rfl, rfl⟩ := h
        exact ⟨le_rfl, by omega, fun j hj1 hj2 => by omega,
          fun hb => by simp at hb, fun _ => ⟨h1, h2⟩⟩
      · rw [if_neg h2] at h
        obtain ⟨ih1, ih2, ih3, ih4, ih5⟩ := ih (s + 1) i b h
        refine ⟨by omega, by omega, ?_, ih4, ih5⟩
        intro j hj1 hj2
        rcases eq_or_lt_of_le hj1 with rfl | hj
        · exact ⟨h1, by simpa using h2⟩
        · exact ih3 j (by omega) hj2

lemma waitLoop_abort (obs : ℕ → FPwrst × Bool) :
    ∀ (fuel s i : ℕ), s ≤ i → i < s + fuel →
      (∀ j, s ≤ j → j ≤ i → (obs j).1 ≠ FPwrst.off) → (obs i).2 = true →
      ∃ j, s ≤ j ∧ j ≤ i ∧ waitLoop obs s fuel = some (j, false) := by
  intro fuel
  induction fuel with
  | zero => intro s i h1 h2 _ _; omega
  | succ n ih =>
    intro s i hsi hlt hoff hdone
    have h1 : (obs s).1 ≠ FPwrst.off := hoff s le_rfl hsi
    by_cases h2 : (obs s).2 = true
    · exact ⟨s, le_rfl, hsi, by simp only [waitLoop]; rw [if_neg h1, if_pos h2]⟩
    · have hsi' : s < i := by
        rcases eq_or_lt_of_le hsi with rfl | h
        · exact absurd hdone h2
        · exact h
      obtain ⟨j, hj1, hj2, hj3⟩ := ih (s + 1) i (by omega) (by omega)
        (fun j ha hb => hoff j (by omega) hb) hdone
      refine ⟨j, by omega, hj2, ?_⟩
      simp only [waitLoop]
      rw [if_neg h1, if_neg h2]
      exact hj3

lemma barrier_not_in_body (cpu : ℕ) (onl : Bool) (cx : IdleStatedata) (f : Bool) :
    Ev.barrier ∉ coupledBodyMain cpu onl cx f := by
  unfold coupledBodyMain
  intro h
  split_ifs at h <;> simp_all

lemma setDoneFalse_not_in_body (cpu : ℕ) (onl : Bool) (cx : IdleStatedata)
    (f : Bool) : Ev.setDone cpu false ∉ coupledBodyMain cpu onl cx f := by
  unfold coupledBodyMain
  intro h
  split_ifs at h <;> simp_all

/-! ## Claim C1 -/

/-- Claim C1: in the symmetric (smp) variant, for every admissible schedule of
vote-enter/vote-exit critical sections by exactly N online participants
(N enters and N exits, with exits never outnumbering enters), the shared MPU
domain is commanded to the state's low-power target iff the vote counter
reaches N, and in that case it is commanded back to fully-on exactly once,
after the low-power command; and in the two-CPU concurrent-entry scenario the
domain-command trace is exactly one retention command followed by one ON
command. -/
theorem smp_quorum_c1 (N : ℕ) (low : FPwrst) (ops : List SmpOp)
    (hN : 0 < N) (hNM : N < u32Mod) (hpo : prefOk 0 ops = true)
    (hE : cntE ops = N) (hX : cntX ops = N) :
    ((N ∈ votesSeq 0 ops →
        (runSmp N low ops ⟨0, []⟩).trace
          = [Ev.setNextF Dom.mpu low, Ev.setNextF Dom.mpu FPwrst.on])
      ∧ (N ∉ votesSeq 0 ops → (runSmp N low ops ⟨0, []⟩).trace = []))
    ∧ (runSmp 2 FPwrst.cswr [SmpOp.enter, SmpOp.enter, SmpOp.exit, SmpOp.exit]
          ⟨0, []⟩).trace
        = [Ev.setNextF Dom.mpu FPwrst.cswr, Ev.setNextF Dom.mpu FPwrst.on] := by
  have hfin : (runSmp N low ops ⟨0, []⟩).mpu_state_vote < N := by
    have hv := runSmp_vote N low hNM ops 0 [] hpo (by omega)
    omega
  have hspec := runSmp_trace_spec N low hNM hN ops 0 [] hpo (by omega) hN hfin
  refine ⟨⟨?_, ?_⟩, by decide⟩
  · intro hm; rw [hspec, if_pos hm]; simp
  · intro hm; rw [hspec, if_neg hm]; simp

/-- Witness for C1: N = 2, concurrent-entry schedule, retention target. -/
theorem smp_quorum_c1_witness :
    ((2 ∈ votesSeq 0 [SmpOp.enter, SmpOp.enter, SmpOp.exit, SmpOp.exit] →
        (runSmp 2 FPwrst.cswr [SmpOp.enter, SmpOp.enter, SmpOp.exit, SmpOp.exit]
            ⟨0, []⟩).trace
          = [Ev.setNextF Dom.mpu FPwrst.cswr, Ev.setNextF Dom.mpu FPwrst.on])
      ∧ (2 ∉ votesSeq 0 [SmpOp.enter, SmpOp.enter, SmpOp.exit, SmpOp.exit] →
        (runSmp 2 FPwrst.cswr [SmpOp.enter, SmpOp.enter, SmpOp.exit, SmpOp.exit]
            ⟨0, []⟩).trace = []))
    ∧ (runSmp 2 FPwrst.cswr [SmpOp.enter, SmpOp.enter, SmpOp.exit, SmpOp.exit]
          ⟨0, []⟩).trace
        = [Ev.setNextF Dom.mpu FPwrst.cswr, Ev.setNextF Dom.mpu FPwrst.on] :=
  smp_quorum_c1 2 FPwrst.cswr [SmpOp.enter, SmpOp.enter, SmpOp.exit, SmpOp.exit]
    (by decide) (by decide) (by decide) (by decide) (by decide)

/-! ## Claim C8 -/

/-- Claim C8 counterexample: a double-vote schedule (three enters with N = 2)
drives the counter to 3 > 2 while the trace contains no assertion event: the
smp path has no defensive assertion for a counter exceeding N, contrary to
the claim. -/
theorem smp_vote_c8_counterexample :
    (runSmp 2 FPwrst.cswr [SmpOp.enter, SmpOp.enter, SmpOp.enter]
        ⟨0, []⟩).mpu_state_vote = 3
    ∧ Ev.warn ∉ (runSmp 2 FPwrst.cswr [SmpOp.enter, SmpOp.enter, SmpOp.enter]
        ⟨0, []⟩).trace := by decide

/-- Claim C8 (amended): the per-state vote counter stays within [0, N] on
every admissible schedule in which each of the N participants votes at most
once (at most N enters, exits never outnumbering enters); the code contains
no defensive assertion for exceeding N (the smp path never emits a WARN). -/
theorem smp_vote_c8_amended (N : ℕ) (low : FPwrst) (ops : List SmpOp)
    (hNM : N < u32Mod) (hpo : prefOk 0 ops = true) (hE : cntE ops ≤ N) :
    ((votesSeq 0 ops).all (fun x => decide (x ≤ N)) = true)
    ∧ Ev.warn ∉ (runSmp N low ops ⟨0, []⟩).trace := by
  constructor
  · rw [List.all_eq_true]
    intro x hx
    simpa using votesSeq_bound N hNM ops 0 hpo (by omega) x hx
  · exact smp_no_warn N low ops 0 [] (by simp)

/-- Witness for the amended C8 at N = 2 with a single enter/exit pair. -/
theorem smp_vote_c8_witness :
    ((votesSeq 0 [SmpOp.enter, SmpOp.exit]).all (fun x => decide (x ≤ 2)) = true)
    ∧ Ev.warn ∉ (runSmp 2 FPwrst.cswr [SmpOp.enter, SmpOp.exit] ⟨0, []⟩).trace :=
  smp_vote_c8_amended 2 FPwrst.cswr [SmpOp.enter, SmpOp.exit]
    (by decide) (by decide) (by decide)

/-! ## Claim C2 -/

/-- Claim C2: the leader (CPU 0, with CPU 1 online) commands the shared MPU
domain only after its wait loop read the follower's power state as OFF, all
earlier iterations having read neither OFF nor the completion flag; on the
abort shortcut no command to the MPU domain is issued at all. -/
theorem coupled_leader_off_c2 (cx : IdleStatedata) (index : ℤ)
    (obs : ℕ → FPwrst × Bool) (fuel : ℕ) (f : Bool) (r : CoupledResult)
    (t : FPwrst)
    (h : omap_enter_idle_coupled 0 true cx index obs fuel f = some r)
    (hmem : Ev.setF Dom.mpu t ∈ r.evs) :
    ∃ i, i < fuel ∧ (obs i).1 = FPwrst.off
      ∧ ∀ j, j < i → (obs j).1 ≠ FPwrst.off ∧ (obs j).2 = false := by
  unfold omap_enter_idle_coupled at h
  rw [if_pos ⟨rfl, rfl⟩] at h
  cases hw : waitLoop obs 0 fuel with
  | none => rw [hw] at h; simp at h
  | some ib =>
    obtain ⟨i, b⟩ := ib
    rw [hw] at h
    cases b with
    | true =>
      obtain ⟨h1, h2, h3, h4, _⟩ := waitLoop_spec obs fuel 0 i true hw
      exact ⟨i, by omega, h4 rfl, fun j hj => h3 j (by omega) hj⟩
    | false =>
      simp only [Option.some.injEq] at h
      subst h
      simp [coupledFinish] at hmem

/-- Witness for C2: the follower reads OFF at the first iteration and the
leader commands the MPU domain to retention. -/
theorem coupled_leader_off_c2_witness :
    ∃ i, i < 1 ∧ ((fun _ => (FPwrst.off, false)) i).1 = FPwrst.off
      ∧ ∀ j, j < i →
        ((fun _ => (FPwrst.off, false)) j).1 ≠ FPwrst.off
        ∧ ((fun _ => (FPwrst.off, false)) j).2 = false :=
  coupled_leader_off_c2 ⟨FPwrst.off, FPwrst.cswr⟩ 1 (fun _ => (FPwrst.off, false))
    1 false
    (coupledFinish 0 (coupledBodyMain 0 true ⟨FPwrst.off, FPwrst.cswr⟩ false) 1 false)
    FPwrst.cswr rfl (by decide)

/-! ## Claim C3 -/

/-- Claim C3: if the follower's completion flag is set at some iteration `i`
and no iteration up to `i` reads the follower's power state as OFF, then with
any fuel above `i` the leader's wait loop terminates on the abort path: the
function returns, with a trace that goes directly to the abort barrier and
contains no command to the shared MPU domain. -/
theorem coupled_abort_c3 (cx : IdleStatedata) (index : ℤ)
    (obs : ℕ → FPwrst × Bool) (fuel i : ℕ) (f : Bool)
    (hoff : ∀ j, j ≤ i → (obs j).1 ≠ FPwrst.off)
    (hdone : (obs i).2 = true) (hfuel : i < fuel) :
    omap_enter_idle_coupled 0 true cx index obs fuel f
      = some (coupledFinish 0 [] index true)
    ∧ (coupledFinish 0 [] index true).evs = [Ev.barrier, Ev.setDone 0 false] := by
  obtain ⟨j, hj0, hji, hw⟩ := waitLoop_abort obs fuel 0 i (by omega) (by omega)
    (fun j _ hb => hoff j hb) hdone
  refine ⟨?_, by simp [coupledFinish]⟩
  unfold omap_enter_idle_coupled
  rw [if_pos ⟨rfl, rfl⟩, hw]

/-- Witness for C3: the follower immediately sets its completion flag while
never reporting OFF. -/
theorem coupled_abort_c3_witness :
    omap_enter_idle_coupled 0 true ⟨FPwrst.off, FPwrst.cswr⟩ 1
        (fun _ => (FPwrst.on, true)) 1 false
      = some (coupledFinish 0 [] 1 true)
    ∧ (coupledFinish 0 [] 1 true).evs = [Ev.barrier, Ev.setDone 0 false] :=
  coupled_abort_c3 ⟨FPwrst.off, FPwrst.cswr⟩ 1 (fun _ => (FPwrst.on, true)) 1 0
    false (fun j _ => by simp) (by decide) (by decide)

/-! ## Claim C4 -/

/-- Claim C4: every terminating execution of `omap_enter_idle_coupled`, on
either CPU and on either path, reaches the abort barrier exactly once, the
only clearing of the CPU's completion flag comes after the barrier call, and
the flag is left false. -/
theorem coupled_barrier_once_c4 (cpu : ℕ) (onl : Bool) (cx : IdleStatedata)
    (index : ℤ) (obs : ℕ → FPwrst × Bool) (fuel : ℕ) (f : Bool)
    (r : CoupledResult)
    (h : omap_enter_idle_coupled cpu onl cx index obs fuel f = some r) :
    ∃ pre, r.evs = pre ++ [Ev.barrier, Ev.setDone cpu false]
      ∧ Ev.barrier ∉ pre ∧ Ev.setDone cpu false ∉ pre
      ∧ r.cpuDoneOut = false := by
  unfold omap_enter_idle_coupled at h
  split at h
  · cases hw : waitLoop obs 0 fuel with
    | none => rw [hw] at h; simp at h
    | some ib =>
      obtain ⟨i, b⟩ := ib
      rw [hw] at h
      cases b with
      | true =>
        simp only [Option.some.injEq] at h
        subst h
        exact ⟨coupledBodyMain cpu onl cx f, rfl,
          barrier_not_in_body cpu onl cx f,
          setDoneFalse_not_in_body cpu onl cx f, rfl⟩
      | false =>
        simp only [Option.some.injEq] at h
        subst h
        exact ⟨[], rfl, by simp, by simp, rfl⟩
  · simp only [Option.some.injEq] at h
    subst h
    exact ⟨coupledBodyMain cpu onl cx f, rfl,
      barrier_not_in_body cpu onl cx f,
      setDoneFalse_not_in_body cpu onl cx f, rfl⟩

/-- Witness for C4: the follower CPU's full path with a two-line tail. -/
theorem coupled_barrier_once_c4_witness :
    ∃ pre,
      (coupledFinish 1 (coupledBodyMain 1 true ⟨FPwrst.off, FPwrst.cswr⟩ false)
          3 false).evs
        = pre ++ [Ev.barrier, Ev.setDone 1 false]
      ∧ Ev.barrier ∉ pre ∧ Ev.setDone 1 false ∉ pre
      ∧ (coupledFinish 1 (coupledBodyMain 1 true ⟨FPwrst.off, FPwrst.cswr⟩ false)
          3 false).cpuDoneOut = false :=
  coupled_barrier_once_c4 1 true ⟨FPwrst.off, FPwrst.cswr⟩ 3
    (fun _ => (FPwrst.off, false)) 0 false
    (coupledFinish 1 (coupledBodyMain 1 true ⟨FPwrst.off, FPwrst.cswr⟩ false)
      3 false) rfl

/-! ## Claim C5 -/

/-- Claim C5 counterexample: with CPU 1 offline the leader commands the
shared MPU domain to its low-power target (line 134) but the restore block of
lines 148-154 is skipped, so the function returns without ever commanding the
domain back to fully-on. -/
theorem restore_c5_counterexample :
    omap_enter_idle_coupled 0 false ⟨FPwrst.off, FPwrst.cswr⟩ 1
        (fun _ => (FPwrst.on, false)) 0 false
      = some ⟨[Ev.bcastEnter 0, Ev.cpuPmEnter, Ev.setF Dom.mpu FPwrst.cswr,
               Ev.lowpower 0 FPwrst.off, Ev.setDone 0 true, Ev.cpuPmExit,
               Ev.bcastExit 0, Ev.barrier, Ev.setDone 0 false], 1, false, false⟩
    ∧ Ev.setF Dom.mpu FPwrst.cswr
        ∈ [Ev.bcastEnter 0, Ev.cpuPmEnter, Ev.setF Dom.mpu FPwrst.cswr,
           Ev.lowpower 0 FPwrst.off, Ev.setDone 0 true, Ev.cpuPmExit,
           Ev.bcastExit 0, Ev.barrier, Ev.setDone 0 false]
    ∧ Ev.setNextF Dom.mpu FPwrst.on
        ∉ [Ev.bcastEnter 0, Ev.cpuPmEnter, Ev.setF Dom.mpu FPwrst.cswr,
           Ev.lowpower 0 FPwrst.off, Ev.setDone 0 true, Ev.cpuPmExit,
           Ev.bcastExit 0, Ev.barrier, Ev.setDone 0 false] := by decide

/-- Claim C5 (amended): in the symmetric variant, on every full N-participant
episode, if the low-power command was issued then the trace is exactly the
low-power command followed by the restore to fully-on; in the coupled variant
with the follower online, on the non-aborted leader path the restore to ON
occurs after the low-power command and before the abort barrier (when the
follower is offline the lowered next-state is deliberately left in place, and
the abort path commands nothing, so there is nothing to restore). -/
theorem restore_c5_amended
    (N : ℕ) (low : FPwrst) (ops : List SmpOp)
    (hN : 0 < N) (hNM : N < u32Mod) (hpo : prefOk 0 ops = true)
    (hE : cntE ops = N) (hX : cntX ops = N)
    (cx : IdleStatedata) (index : ℤ) (obs : ℕ → FPwrst × Bool) (fuel : ℕ)
    (f : Bool) (r : CoupledResult)
    (h : omap_enter_idle_coupled 0 true cx index obs fuel f = some r)
    (hab : r.aborted = false) :
    (Ev.setNextF Dom.mpu low ∈ (runSmp N low ops ⟨0, []⟩).trace →
      (runSmp N low ops ⟨0, []⟩).trace
        = [Ev.setNextF Dom.mpu low, Ev.setNextF Dom.mpu FPwrst.on])
    ∧ Before (Ev.setF Dom.mpu cx.mpu_pwrst) (Ev.setNextF Dom.mpu FPwrst.on) r.evs
    ∧ Before (Ev.setNextF Dom.mpu FPwrst.on) Ev.barrier r.evs := by
  have hfin : (runSmp N low ops ⟨0, []⟩).mpu_state_vote < N := by
    have hv := runSmp_vote N low hNM ops 0 [] hpo (by omega)
    omega
  have hspec := runSmp_trace_spec N low hNM hN ops 0 [] hpo (by omega) hN hfin
  have hr : r = coupledFinish 0 (coupledBodyMain 0 true cx f) index false := by
    unfold omap_enter_idle_coupled at h
    rw [if_pos ⟨rfl, rfl⟩] at h
    cases hw : waitLoop obs 0 fuel with
    | none => rw [hw] at h; simp at h
    | some ib =>
      obtain ⟨i, b⟩ := ib
      rw [hw] at h
      cases b with
      | true => simp only [Option.some.injEq] at h; exact h.symm
      | false =>
        simp only [Option.some.injEq] at h
        rw [← h] at hab
        simp [coupledFinish] at hab
  subst hr
  refine ⟨?_, ?_, ?_⟩
  · intro hmm
    by_cases hm : N ∈ votesSeq 0 ops
    · rw [hspec, if_pos hm]; simp
    · rw [hspec, if_neg hm] at hmm; simp at hmm
  · refine ⟨[Ev.bcastEnter 0, Ev.cpuPmEnter],
      (if f then [Ev.warn] else [])
        ++ (if cx.mpu_pwrst = FPwrst.oswr then [Ev.clusterPmEnter] else [])
        ++ [Ev.lowpower 0 cx.cpu_pwrst, Ev.setDone 0 true],
      [Ev.clkdmWakeup 1, Ev.setNextF (Dom.cpuPd 1) FPwrst.on,
       Ev.clkdmAllowIdle 1, Ev.cpuPmExit]
        ++ (if cx.mpu_pwrst = FPwrst.oswr then [Ev.clusterPmExit] else [])
        ++ [Ev.bcastExit 0, Ev.barrier, Ev.setDone 0 false], ?_⟩
    simp [coupledFinish, coupledBodyMain]
  · refine ⟨[Ev.bcastEnter 0, Ev.cpuPmEnter, Ev.setF Dom.mpu cx.mpu_pwrst]
        ++ (if f then [Ev.warn] else [])
        ++ (if cx.mpu_pwrst = FPwrst.oswr then [Ev.clusterPmEnter] else [])
        ++ [Ev.lowpower 0 cx.cpu_pwrst, Ev.setDone 0 true],
      [Ev.clkdmWakeup 1, Ev.setNextF (Dom.cpuPd 1) FPwrst.on,
       Ev.clkdmAllowIdle 1, Ev.cpuPmExit]
        ++ (if cx.mpu_pwrst = FPwrst.oswr then [Ev.clusterPmExit] else [])
        ++ [Ev.bcastExit 0],
      [Ev.setDone 0 false], ?_⟩
    simp [coupledFinish, coupledBodyMain]

/-- Witness for the amended C5: N = 2 full episode and the leader's online
full path at the retention state. -/
theorem restore_c5_witness :
    (Ev.setNextF Dom.mpu FPwrst.cswr
        ∈ (runSmp 2 FPwrst.cswr [SmpOp.enter, SmpOp.enter, SmpOp.exit, SmpOp.exit]
            ⟨0, []⟩).trace →
      (runSmp 2 FPwrst.cswr [SmpOp.enter, SmpOp.enter, SmpOp.exit, SmpOp.exit]
          ⟨0, []⟩).trace
        = [Ev.setNextF Dom.mpu FPwrst.cswr, Ev.setNextF Dom.mpu FPwrst.on])
    ∧ Before (Ev.setF Dom.mpu FPwrst.cswr) (Ev.setNextF Dom.mpu FPwrst.on)
        (coupledFinish 0
          (coupledBodyMain 0 true ⟨FPwrst.off, FPwrst.cswr⟩ false) 1 false).evs
    ∧ Before (Ev.setNextF Dom.mpu FPwrst.on) Ev.barrier
        (coupledFinish 0
          (coupledBodyMain 0 true ⟨FPwrst.off, FPwrst.cswr⟩ false) 1 false).evs :=
  restore_c5_amended 2 FPwrst.cswr [SmpOp.enter, SmpOp.enter, SmpOp.exit, SmpOp.exit]
    (by decide) (by decide) (by decide) (by decide) (by decide)
    ⟨FPwrst.off, FPwrst.cswr⟩ 1 (fun _ => (FPwrst.off, false)) 1 false
    (coupledFinish 0 (coupledBodyMain 0 true ⟨FPwrst.off, FPwrst.cswr⟩ false) 1 false)
    rfl rfl

/-! ## Claim C6 -/

/-- Claim C6 counterexample: on the leader's full OSWR path the command to
the shared domain (line 134) comes strictly before the cluster-level suspend
notifier chain (line 141), refuting the claimed order (notifier chain first,
then domain command). -/
theorem coupled_order_c6_counterexample :
    omap_enter_idle_coupled 0 true ⟨FPwrst.off, FPwrst.oswr⟩ 2
        (fun _ => (FPwrst.off, false)) 1 false
      = some ⟨[Ev.bcastEnter 0, Ev.cpuPmEnter, Ev.setF Dom.mpu FPwrst.oswr,
               Ev.clusterPmEnter, Ev.lowpower 0 FPwrst.off, Ev.setDone 0 true,
               Ev.setNextF Dom.mpu FPwrst.on, Ev.clkdmWakeup 1,
               Ev.setNextF (Dom.cpuPd 1) FPwrst.on, Ev.clkdmAllowIdle 1,
               Ev.cpuPmExit, Ev.clusterPmExit, Ev.bcastExit 0, Ev.barrier,
               Ev.setDone 0 false], 2, false, false⟩
    ∧ Ev.clusterPmEnter
        ∈ [Ev.bcastEnter 0, Ev.cpuPmEnter, Ev.setF Dom.mpu FPwrst.oswr,
           Ev.clusterPmEnter, Ev.lowpower 0 FPwrst.off, Ev.setDone 0 true,
           Ev.setNextF Dom.mpu FPwrst.on, Ev.clkdmWakeup 1,
           Ev.setNextF (Dom.cpuPd 1) FPwrst.on, Ev.clkdmAllowIdle 1,
           Ev.cpuPmExit, Ev.clusterPmExit, Ev.bcastExit 0, Ev.barrier,
           Ev.setDone 0 false]
    ∧ [Ev.bcastEnter 0, Ev.cpuPmEnter, Ev.setF Dom.mpu FPwrst.oswr,
       Ev.clusterPmEnter, Ev.lowpower 0 FPwrst.off, Ev.setDone 0 true,
       Ev.setNextF Dom.mpu FPwrst.on, Ev.clkdmWakeup 1,
       Ev.setNextF (Dom.cpuPd 1) FPwrst.on, Ev.clkdmAllowIdle 1,
       Ev.cpuPmExit, Ev.clusterPmExit, Ev.bcastExit 0, Ev.barrier,
       Ev.setDone 0 false].indexOf (Ev.setF Dom.mpu FPwrst.oswr)
      < [Ev.bcastEnter 0, Ev.cpuPmEnter, Ev.setF Dom.mpu FPwrst.oswr,
         Ev.clusterPmEnter, Ev.lowpower 0 FPwrst.off, Ev.setDone 0 true,
         Ev.setNextF Dom.mpu FPwrst.on, Ev.clkdmWakeup 1,
         Ev.setNextF (Dom.cpuPd 1) FPwrst.on, Ev.clkdmAllowIdle 1,
         Ev.cpuPmExit, Ev.clusterPmExit, Ev.bcastExit 0, Ev.barrier,
         Ev.setDone 0 false].indexOf Ev.clusterPmEnter := by decide

/-- Claim C6 (amended): only after its wait loop reads the follower's power
state as OFF does the leader perform, in this order: broadcast clock-event
enter, the per-CPU PM enter notifier, the command of the shared domain to its
target, then (the target being OSWR) the cluster-level suspend notifier
chain, its own low-power entry; and on return: restore of the shared domain
to fully-on, wake of the follower's clock domain, command of the follower's
domain to fully-on, the cluster-level resume notifier chain, and the
broadcast clock-event exit. -/
theorem coupled_order_c6_amended (cx : IdleStatedata) (index : ℤ)
    (obs : ℕ → FPwrst × Bool) (fuel i : ℕ)
    (hw : waitLoop obs 0 fuel = some (i, true))
    (ho : cx.mpu_pwrst = FPwrst.oswr) :
    omap_enter_idle_coupled 0 true cx index obs fuel false
      = some ⟨[Ev.bcastEnter 0, Ev.cpuPmEnter, Ev.setF Dom.mpu FPwrst.oswr,
               Ev.clusterPmEnter, Ev.lowpower 0 cx.cpu_pwrst, Ev.setDone 0 true,
               Ev.setNextF Dom.mpu FPwrst.on, Ev.clkdmWakeup 1,
               Ev.setNextF (Dom.cpuPd 1) FPwrst.on, Ev.clkdmAllowIdle 1,
               Ev.cpuPmExit, Ev.clusterPmExit, Ev.bcastExit 0, Ev.barrier,
               Ev.setDone 0 false], index, false, false⟩
    ∧ (obs i).1 = FPwrst.off := by
  have hs := waitLoop_spec obs fuel 0 i true hw
  refine ⟨?_, hs.2.2.2.1 rfl⟩
  unfold omap_enter_idle_coupled
  rw [if_pos ⟨rfl, rfl⟩, hw]
  simp [coupledFinish, coupledBodyMain, ho]

/-- Witness for the amended C6: the follower reports OFF immediately. -/
theorem coupled_order_c6_witness :
    omap_enter_idle_coupled 0 true ⟨FPwrst.off, FPwrst.oswr⟩ 3
        (fun _ => (FPwrst.off, false)) 1 false
      = some ⟨[Ev.bcastEnter 0, Ev.cpuPmEnter, Ev.setF Dom.mpu FPwrst.oswr,
               Ev.clusterPmEnter, Ev.lowpower 0 FPwrst.off, Ev.setDone 0 true,
               Ev.setNextF Dom.mpu FPwrst.on, Ev.clkdmWakeup 1,
               Ev.setNextF (Dom.cpuPd 1) FPwrst.on, Ev.clkdmAllowIdle 1,
               Ev.cpuPmExit, Ev.clusterPmExit, Ev.bcastExit 0, Ev.barrier,
               Ev.setDone 0 false], 3, false, false⟩
    ∧ ((fun _ => (FPwrst.off, false)) 0).1 = FPwrst.off :=
  coupled_order_c6_amended ⟨FPwrst.off, FPwrst.oswr⟩ 3
    (fun _ => (FPwrst.off, false)) 1 0 rfl rfl

/-! ## Claim C7 -/

/-- Claim C7: every idle-entry callback returns exactly the state index it
was invoked with, on every terminating path including the early abort; no
error value is ever returned to the framework. -/
theorem returns_index_c7 :
    (∀ index : ℤ, (omap_enter_idle_simple index).2 = index)
    ∧ (∀ (N : ℕ) (cx : IdleStatedata) (cpu : ℕ) (index : ℤ) (st : SmpShared),
        (omap_enter_idle_smp N cx cpu index st).2.2 = index)
    ∧ (∀ (cpu : ℕ) (onl : Bool) (cx : IdleStatedata) (index : ℤ)
        (obs : ℕ → FPwrst × Bool) (fuel : ℕ) (f : Bool) (r : CoupledResult),
        omap_enter_idle_coupled cpu onl cx index obs fuel f = some r →
        r.ret = index) := by
  refine ⟨fun _ => rfl, fun _ _ _ _ _ => rfl, ?_⟩
  intro cpu onl cx index obs fuel f r h
  unfold omap_enter_idle_coupled at h
  split at h
  · cases hw : waitLoop obs 0 fuel with
    | none => rw [hw] at h; simp at h
    | some ib =>
      obtain ⟨i, b⟩ := ib
      rw [hw] at h
      cases b with
      | true => simp only [Option.some.injEq] at h; subst h; rfl
      | false => simp only [Option.some.injEq] at h; subst h; rfl
  · simp only [Option.some.injEq] at h
    subst h
    rfl

/-- Witness for C7 on all three callbacks, the coupled one on its abort
path. -/
theorem returns_index_c7_witness :
    (omap_enter_idle_simple 0).2 = 0
    ∧ (omap_enter_idle_smp 2 ⟨FPwrst.off, FPwrst.cswr⟩ 0 1 ⟨0, []⟩).2.2 = 1
    ∧ (coupledFinish 0 [] 2 true).ret = 2 :=
  ⟨returns_index_c7.1 0,
   returns_index_c7.2.1 2 ⟨FPwrst.off, FPwrst.cswr⟩ 0 1 ⟨0, []⟩,
   returns_index_c7.2.2 0 true ⟨FPwrst.off, FPwrst.cswr⟩ 2
     (fun _ => (FPwrst.on, true)) 1 false (coupledFinish 0 [] 2 true) rfl⟩

/-! ## Claim C9 -/

/-- Claim C9: if any power- or clock-domain lookup fails at initialization,
or the SoC is neither OMAP4 nor OMAP5, `omap4_idle_init` returns `-ENODEV`
and registers no cpuidle driver (and makes no retry: no registration event at
all appears). -/
theorem init_enodev_c9 (env : InitEnv)
    (h : env.mpu_pd = false ∨ env.cpu0_pd = false ∨ env.cpu1_pd = false
        ∨ env.mpu0_clkdm = false ∨ env.mpu1_clkdm = false
        ∨ env.soc = Soc.other) :
    (omap4_idle_init env).2 = -ENODEV
    ∧ ∀ k, Ev.cpuidleRegister k ∉ (omap4_idle_init env).1 := by
  unfold omap4_idle_init
  split_ifs with h1 h2
  · exact ⟨rfl, fun k => by simp⟩
  · exact ⟨rfl, fun k => by simp⟩
  · rcases h with h | h | h | h | h | h
    · exact absurd (Or.inl h) h1
    · exact absurd (Or.inr (Or.inl h)) h1
    · exact absurd (Or.inr (Or.inr h)) h1
    · exact absurd (Or.inl h) h2
    · exact absurd (Or.inr h) h2
    · rw [h]
      exact ⟨rfl, fun k => by simp⟩

/-- Witness for C9: the `mpu_pwrdm` lookup fails. -/
theorem init_enodev_c9_witness :
    (omap4_idle_init ⟨false, true, true, true, true, Soc.omap44xx, 0⟩).2 = -ENODEV
    ∧ ∀ k, Ev.cpuidleRegister k
        ∉ (omap4_idle_init ⟨false, true, true, true, true, Soc.omap44xx, 0⟩).1 :=
  init_enodev_c9 ⟨false, true, true, true, true, Soc.omap44xx, 0⟩ (Or.inl rfl)

/-! ## Claim C10 -/

/-- Claim C10 counterexample: the follower CPU running the OSWR state invokes
the cluster-level resume notifier (line 166-167 is not guarded by
`dev->cpu == 0`) without ever having invoked the suspend notifier (line
140-141 is inside the leader-only block), so the cluster enter/exit pair does
not occur as a pair on this execution. -/
theorem coupled_balance_c10_counterexample :
    omap_enter_idle_coupled 1 true ⟨FPwrst.off, FPwrst.oswr⟩ 2
        (fun _ => (FPwrst.off, false)) 0 false
      = some ⟨[Ev.bcastEnter 1, Ev.cpuPmEnter, Ev.lowpower 1 FPwrst.off,
               Ev.setDone 1 true, Ev.cpuPmExit, Ev.clusterPmExit,
               Ev.bcastExit 1, Ev.barrier, Ev.setDone 1 false], 2, false, false⟩
    ∧ Ev.clusterPmExit
        ∈ [Ev.bcastEnter 1, Ev.cpuPmEnter, Ev.lowpower 1 FPwrst.off,
           Ev.setDone 1 true, Ev.cpuPmExit, Ev.clusterPmExit,
           Ev.bcastExit 1, Ev.barrier, Ev.setDone 1 false]
    ∧ Ev.clusterPmEnter
        ∉ [Ev.bcastEnter 1, Ev.cpuPmEnter, Ev.lowpower 1 FPwrst.off,
           Ev.setDone 1 true, Ev.cpuPmExit, Ev.clusterPmExit,
           Ev.bcastExit 1, Ev.barrier, Ev.setDone 1 false] := by decide

/-- Claim C10 (amended): on every terminating execution the final `cpu_done`
value is false; on the full path the notification subtrace is exactly
broadcast-enter, PM-enter, (cluster suspend iff leader and OSWR), PM-exit,
(cluster resume iff OSWR, on either CPU), broadcast-exit — each at most once
and properly nested except that the follower with OSWR gets a cluster resume
without a cluster suspend; on the abort path no notification occurs at all. -/
theorem coupled_balance_c10_amended (cpu : ℕ) (onl : Bool) (cx : IdleStatedata)
    (index : ℤ) (obs : ℕ → FPwrst × Bool) (fuel : ℕ) (f : Bool)
    (r : CoupledResult)
    (h : omap_enter_idle_coupled cpu onl cx index obs fuel f = some r) :
    r.cpuDoneOut = false
    ∧ (r.aborted = false →
        r.evs.filter notifEv
          = [Ev.bcastEnter cpu, Ev.cpuPmEnter]
            ++ (if cpu = 0 ∧ cx.mpu_pwrst = FPwrst.oswr
                then [Ev.clusterPmEnter] else [])
            ++ [Ev.cpuPmExit]
            ++ (if cx.mpu_pwrst = FPwrst.oswr then [Ev.clusterPmExit] else [])
            ++ [Ev.bcastExit cpu])
    ∧ (r.aborted = true → r.evs = [Ev.barrier, Ev.setDone cpu false]) := by
  have hbody : ∀ hr : r = coupledFinish cpu (coupledBodyMain cpu onl cx f) index false,
      r.cpuDoneOut = false
      ∧ (r.aborted = false →
          r.evs.filter notifEv
            = [Ev.bcastEnter cpu, Ev.cpuPmEnter]
              ++ (if cpu = 0 ∧ cx.mpu_pwrst = FPwrst.oswr
                  then [Ev.clusterPmEnter] else [])
              ++ [Ev.cpuPmExit]
              ++ (if cx.mpu_pwrst = FPwrst.oswr then [Ev.clusterPmExit] else [])
              ++ [Ev.bcastExit cpu])
      ∧ (r.aborted = true → r.evs = [Ev.barrier, Ev.setDone cpu false]) := by
    intro hr
    subst hr
    refine ⟨rfl, fun _ => ?_, fun hab => by simp [coupledFinish] at hab⟩
    simp only [coupledFinish, coupledBodyMain, List.filter_append]
    split_ifs <;> simp_all [notifEv, List.filter]
  unfold omap_enter_idle_coupled at h
  split at h
  · cases hw : waitLoop obs 0 fuel with
    | none => rw [hw] at h; simp at h
    | some ib =>
      obtain ⟨i, b⟩ := ib
      rw [hw] at h
      cases b with
      | true =>
        simp only [Option.some.injEq] at h
        exact hbody h.symm
      | false =>
        simp only [Option.some.injEq] at h
        subst h
        exact ⟨rfl, fun hab => by simp [coupledFinish] at hab, fun _ => rfl⟩
  · simp only [Option.some.injEq] at h
    exact hbody h.symm

/-- Witness for the amended C10: the leader's full OSWR path. -/
theorem coupled_balance_c10_witness :
    (coupledFinish 0 (coupledBodyMain 0 true ⟨FPwrst.off, FPwrst.oswr⟩ false)
        2 false).cpuDoneOut = false
    ∧ ((coupledFinish 0 (coupledBodyMain 0 true ⟨FPwrst.off, FPwrst.oswr⟩ false)
          2 false).aborted = false →
        (coupledFinish 0 (coupledBodyMain 0 true ⟨FPwrst.off, FPwrst.oswr⟩ false)
            2 false).evs.filter notifEv
          = [Ev.bcastEnter 0, Ev.cpuPmEnter]
            ++ (if 0 = 0 ∧ (⟨FPwrst.off, FPwrst.oswr⟩ : IdleStatedata).mpu_pwrst
                  = FPwrst.oswr
                then [Ev.clusterPmEnter] else [])
            ++ [Ev.cpuPmExit]
            ++ (if (⟨FPwrst.off, FPwrst.oswr⟩ : IdleStatedata).mpu_pwrst
                  = FPwrst.oswr
                then [Ev.clusterPmExit] else [])
            ++ [Ev.bcastExit 0])
    ∧ ((coupledFinish 0 (coupledBodyMain 0 true ⟨FPwrst.off, FPwrst.oswr⟩ false)
          2 false).aborted = true →
        (coupledFinish 0 (coupledBodyMain 0 true ⟨FPwrst.off, FPwrst.oswr⟩ false)
            2 false).evs = [Ev.barrier, Ev.setDone 0 false]) :=
  coupled_balance_c10_amended 0 true ⟨FPwrst.off, FPwrst.oswr⟩ 2
    (fun _ => (FPwrst.off, false)) 1 false
    (coupledFinish 0 (coupledBodyMain 0 true ⟨FPwrst.off, FPwrst.oswr⟩ false)
      2 false) rfl
